import Mathlib

/-!
Shallow embedding of `actions/cross-repo-sync/src/program.ts` (and its service
interfaces `Core.ts` / `Git.ts`).  JavaScript strings are modelled as `List Char`;
the imperative Effect pipeline is modelled as a pure function that returns an
`Except` result together with the ordered list of effectful actions it performed
(logging, git operations, file-system operations).  File contents live in a
file-system map `Fs : List Char → Option (List Char)`; git results (status text,
resolved `HEAD`) are supplied by an environment oracle, since they are produced
by the external git tool.
-/

/-- JavaScript strings, modelled as lists of characters. -/
abbrev JStr := List Char

/-- Embed a Lean string literal as a `JStr`. -/
def js (s : String) : JStr := s.toList

/-- Characters removed by JavaScript `String.prototype.trim` (ECMAScript
WhiteSpace and LineTerminator code points; the common ones are listed). -/
def js_ws (c : Char) : Bool :=
  c = ' ' || c = '\t' || c = '\n' || c = '\r' || c = '\u000B' || c = '\u000C' ||
  c = '\u00A0' || c = '\uFEFF' || c = '\u2028' || c = '\u2029'

/-- JavaScript `s.trim()`: drop leading and trailing whitespace. -/
def jtrim (s : JStr) : JStr :=
  ((s.dropWhile js_ws).reverse.dropWhile js_ws).reverse

/-- JavaScript `s.split("\n")`: split at every newline, keeping empty pieces
(`"".split("\n")` is `[""]`). -/
def split_nl : JStr → List JStr
  | [] => [[]]
  | c :: rest =>
    if c = '\n' then [] :: split_nl rest
    else
      match split_nl rest with
      | [] => [[c]]
      | l :: ls => (c :: l) :: ls

/-- JavaScript `indexOf` plus the two `slice` calls of `program.ts`: split a
string at the first occurrence of `sep`, returning `none` when `sep` is absent
(the `indexOf === -1` branch). -/
def split_first (sep : Char) : JStr → Option (JStr × JStr)
  | [] => none
  | c :: rest =>
    if c = sep then some ([], rest)
    else
      match split_first sep rest with
      | none => none
      | some (a, b) => some (c :: a, b)

/-- JavaScript line-terminator code points, which `.` in a regex without the
`s` flag does not match. -/
def is_line_term (c : Char) : Bool :=
  c = '\n' || c = '\r' || c = '\u2028' || c = '\u2029'

/-- The quote-stripping step `s.replace(/^"(.*)"$/, "$1")` of `program.ts`:
the regex matches iff the string has length at least two, begins and ends with
a double quote, and its interior contains no line terminator; on a match the
surrounding quotes are removed, otherwise the string is unchanged. -/
def strip_quotes (s : JStr) : JStr :=
  if 2 ≤ s.length ∧ s.head? = some '"' ∧ s.getLast? = some '"' ∧
      ((s.drop 1).dropLast.all fun c => !is_line_term c) then
    (s.drop 1).dropLast
  else s

/-- JavaScript `s.includes("..")`: does the string contain two consecutive
dots anywhere? -/
def has_dotdot : JStr → Bool
  | '.' :: '.' :: _ => true
  | _ :: rest => has_dotdot rest
  | [] => false

/-- JavaScript `s.startsWith("/")`. -/
def starts_slash (s : JStr) : Bool :=
  s.head? = some '/'

/-- The path-safety check of `parse_inputs` (`program.ts` lines 76 and 93-98):
a path is kept only when it has no `".."` segment and no leading `"/"`. -/
def path_safe (s : JStr) : Bool :=
  !has_dotdot s && !starts_slash s

/-- The character class `[a-zA-Z0-9._-]` of the repository-format regex. -/
def repo_char (c : Char) : Bool :=
  c.isAlphanum || c = '.' || c = '_' || c = '-'

/-- The test `/^[a-zA-Z0-9._-]+\/[a-zA-Z0-9._-]+$/.test(s)` of `program.ts`
line 51: one `'/'` separating two non-empty runs of class characters (the
class excludes `'/'`, so the second run matching to the end forces exactly one
slash). -/
def repo_format_ok (s : JStr) : Bool :=
  match split_first '/' s with
  | none => false
  | some (a, b) => !a.isEmpty && !b.isEmpty && a.all repo_char && b.all repo_char

/-- Outcome of processing one line of the `sync_paths` input: skipped because
blank, rejected by the safety check (with the warning message), or accepted as
a `(source, destination)` mapping. -/
inductive LineResult
  | blank
  | rejected (msg : JStr)
  | accepted (src dst : JStr)
  deriving DecidableEq, Repr

/-- The body of the `for (const line of sync_paths_input.split("\n"))` loop of
`parse_inputs` (`program.ts` lines 66-107), for a single line. -/
def parse_line (line : JStr) : LineResult :=
  let t := jtrim line
  if t = [] then .blank
  else
    match split_first ':' t with
    | none =>
      let cs := strip_quotes t
      if path_safe cs then .accepted cs cs
      else .rejected (js "Potentially unsafe path detected and skipped: " ++ cs)
    | some (rawsrc, rawdst) =>
      let cs := strip_quotes (jtrim rawsrc)
      let cd := strip_quotes (jtrim rawdst)
      if path_safe cs && path_safe cd then .accepted cs cd
      else .rejected
        (js "Potentially unsafe path detected and skipped: " ++ cs ++ js " -> " ++ cd)

/-- The mapping contributed by one line, if any (the loop's `sync_paths.push`). -/
def line_pair (l : JStr) : Option (JStr × JStr) :=
  match parse_line l with
  | .accepted s d => some (s, d)
  | _ => none

/-- The warning contributed by one line, if any (the loop's `core.warning`). -/
def line_warning (l : JStr) : Option JStr :=
  match parse_line l with
  | .rejected m => some m
  | _ => none

/-- The raw action inputs as read by `core.get_input` in `parse_inputs`. -/
structure RawInputs where
  personal_access_token : JStr
  sync_paths : JStr
  source_repo : JStr
  destination_repo : JStr
  dry_run : JStr
  deriving DecidableEq, Repr

/-- The validated `ActionInputs` record of `program.ts`. -/
structure ActionInputs where
  personal_access_token : JStr
  sync_paths : List (JStr × JStr)
  source_repo : JStr
  destination_repo : JStr
  dry_run : Bool
  deriving DecidableEq, Repr

/-- One effectful action performed by the program, in the order performed:
`Core` service calls, git operations, and file-system operations. -/
inductive Act
  | set_secret (tok : JStr)
  | warning (msg : JStr)
  | info (msg : JStr)
  | set_output (key val : JStr)
  | git_config (user email : JStr)
  | mk_temp_dir
  | mk_dir (p : JStr)
  | clone (url dir : JStr)
  | rename (src dst : JStr)
  | add (paths : List JStr)
  | commit (msg : JStr)
  | push
  | rev_parse (r : JStr)
  | remove (p : JStr)
  deriving DecidableEq, Repr

deriving instance DecidableEq for Except

/-- The `parse_inputs` effect of `program.ts` (lines 22-121): validation checks
in source order, then the line loop, then the emptiness check.  Returns the
parse outcome together with the `Core` actions performed (`set_secret` first,
then one warning per rejected line). -/
def parse_inputs (raw : RawInputs) : Except JStr ActionInputs × List Act :=
  let tok := raw.personal_access_token
  let warns := (split_nl raw.sync_paths).filterMap line_warning
  let pairs := (split_nl raw.sync_paths).filterMap line_pair
  if tok = [] then
    (.error (js "personal_access_token is required"), [Act.set_secret tok])
  else if raw.destination_repo = [] then
    (.error (js "destination_repo is required"), [Act.set_secret tok])
  else if raw.source_repo = [] then
    (.error (js "source_repo is required"), [Act.set_secret tok])
  else if !repo_format_ok raw.destination_repo then
    (.error (js "Invalid repository format: \"" ++ raw.destination_repo ++
      js "\". Expected format: \"owner/repo\""), [Act.set_secret tok])
  else if jtrim raw.sync_paths = [] then
    (.error (js "sync_paths is required"), [Act.set_secret tok])
  else if pairs = [] then
    (.error (js "No valid sync paths found"),
      Act.set_secret tok :: warns.map Act.warning)
  else
    (.ok { personal_access_token := tok, sync_paths := pairs,
           source_repo := raw.source_repo, destination_repo := raw.destination_repo,
           dry_run := raw.dry_run = js "true" },
     Act.set_secret tok :: warns.map Act.warning)

/-- The file system, as a map from absolute paths to file contents.  Only
regular files are tracked; `makeDirectory` with `recursive: true` always
succeeds and is recorded in the trace only. -/
abbrev Fs := JStr → Option JStr

/-- Node `path.join(a, b)` for one directory and one relative segment, as used
by `move_paths`: an empty component is ignored, otherwise the two parts are
joined with a single separator.  (Node's `..`-normalisation is irrelevant here:
parsed mappings never contain `".."`.) -/
def path_join (a b : JStr) : JStr :=
  if b = [] then a else if a = [] then b else a ++ '/' :: b

/-- Node `path.dirname`: everything before the last separator, `"."` when the
path has no separator. -/
def path_dirname (p : JStr) : JStr :=
  match split_first '/' p.reverse with
  | none => js "."
  | some (_, d) => d.reverse

/-- `fs.rename(src, dst)`: fails when the source path does not exist,
otherwise removes the source entry and (over)writes the destination entry. -/
def fs_rename (src dst : JStr) (fs : Fs) : Except JStr Fs :=
  match fs src with
  | none => .error (js "ENOENT: no such file or directory, rename " ++ src)
  | some content =>
    .ok fun p => if p = dst then some content else if p = src then none else fs p

/-- The `move_paths` effect of `program.ts` (lines 162-192): for each mapping
in list order, compute the joined source and destination paths, create the
destination's parent directory, and `rename` (move) the source path onto the
destination path, overwriting whatever was there.  Returns the final file
system (or the first failure) and the performed actions. -/
def move_paths (pairs : List (JStr × JStr)) (source_clone_dir destination_clone_dir : JStr)
    (fs : Fs) : Except JStr Fs × List Act :=
  match pairs with
  | [] => (.ok fs, [])
  | (source, destination) :: rest =>
    let source_path := path_join source_clone_dir source
    let destination_path := path_join destination_clone_dir destination
    let destination_dir_path := path_dirname destination_path
    match fs_rename source_path destination_path fs with
    | .error e => (.error e, [Act.mk_dir destination_dir_path])
    | .ok fs' =>
      match move_paths rest source_clone_dir destination_clone_dir fs' with
      | (r, tr) =>
        (r, Act.mk_dir destination_dir_path :: Act.rename source_path destination_path :: tr)

/-- The fixed commit message of `commit_and_push` (`program.ts` line 211). -/
def commit_message : JStr := js "chore: Sync files from source repository"

/-- Oracle results of the git queries on the merged tree's repo handle: the
porcelain status text and the identifier `HEAD` resolves to after the push. -/
structure RepoEnv where
  status : JStr
  head : JStr

/-- The `commit_and_push` effect of `program.ts` (lines 195-223): if the
status string is empty after trimming, log and return the empty string;
otherwise `add(["."])`, `commit` with the fixed message, `push`, resolve
`HEAD`, log, and return the resolved hash. -/
def commit_and_push (repo : RepoEnv) : JStr × List Act :=
  if jtrim repo.status = [] then
    ([], [Act.info (js "No changes detected, skipping commit and push")])
  else
    (repo.head,
     [Act.add [js "."],
      Act.commit commit_message,
      Act.push,
      Act.rev_parse (js "HEAD"),
      Act.info (js "Successfully pushed changes with commit hash: " ++ repo.head)])

/-- Characters that JavaScript `encodeURIComponent` leaves unescaped. -/
def uri_unreserved (c : Char) : Bool :=
  c.isAlphanum || c = '-' || c = '_' || c = '.' || c = '!' || c = '~' ||
  c = '*' || c = '\'' || c = '(' || c = ')'

/-- Uppercase hexadecimal digit for a value below 16. -/
def hex_digit (n : Nat) : Char :=
  if n < 10 then Char.ofNat ('0'.toNat + n) else Char.ofNat ('A'.toNat + (n - 10))

/-- UTF-8 bytes of one code point. -/
def utf8_bytes (c : Char) : List Nat :=
  let n := c.toNat
  if n < 0x80 then [n]
  else if n < 0x800 then [0xC0 + n / 64, 0x80 + n % 64]
  else if n < 0x10000 then [0xE0 + n / 4096, 0x80 + n / 64 % 64, 0x80 + n % 64]
  else [0xF0 + n / 262144, 0x80 + n / 4096 % 64, 0x80 + n / 64 % 64, 0x80 + n % 64]

/-- JavaScript `encodeURIComponent`: unreserved characters pass through, every
other character becomes `%XY` per UTF-8 byte. -/
def encode_uri_component (s : JStr) : JStr :=
  s.foldr
    (fun c acc =>
      (if uri_unreserved c then [c]
       else (utf8_bytes c).foldr (fun b a => '%' :: hex_digit (b / 16) :: hex_digit (b % 16) :: a) []) ++ acc)
    []

/-- The clone URL built by `clone_repo` (`program.ts` lines 151-153):
`https://<encodeURIComponent(token)>@github.com/<repo>.git`. -/
def clone_url (access_token repo : JStr) : JStr :=
  js "https://" ++ encode_uri_component access_token ++ js "@github.com/" ++ repo ++ js ".git"

/-- Decimal rendering of a `Nat`, for the interpolated log messages. -/
def nat_repr (n : Nat) : JStr := (Nat.repr n).toList

/-- The startup log line of `program` (`program.ts` lines 237-241). -/
def start_msg (inputs : ActionInputs) : JStr :=
  js "🚀 Starting cross-repo sync to " ++ inputs.destination_repo ++
    (if inputs.dry_run then js " (DRY RUN)" else [])

/-- The mapping-count log line of `program` (`program.ts` line 243). -/
def found_msg (inputs : ActionInputs) : JStr :=
  js "📁 Found " ++ nat_repr inputs.sync_paths.length ++ js " sync path(s):"

/-- One log line per mapping, numbered from one (`program.ts` lines 245-247). -/
def mapping_logs (i : Nat) : List (JStr × JStr) → List Act
  | [] => []
  | (source, destination) :: rest =>
    Act.info (js "   " ++ nat_repr (i + 1) ++ js ". " ++ source ++ js " -> " ++ destination)
      :: mapping_logs (i + 1) rest

/-- The dry-run log line of `program` (`program.ts` line 250). -/
def dry_run_msg : JStr := js "🧪 Running in dry-run mode - no actual changes will be made"

/-- The final success log line of `program` (`program.ts` line 308). -/
def done_msg : JStr := js "✅ Cross-repo sync completed successfully"

/-- Environment oracle for one run: the temp directory `makeTempDirectory`
returns, the file-system contents after the two clones, and the git query
results on the merged tree. -/
structure Env where
  temp_dir : JStr
  fs : Fs
  status : JStr
  head : JStr

/-- The action's output store.  GitHub Actions outputs read as the empty
string until `set_output` assigns them, so the store is a total map
defaulting to the empty string. -/
def outputs0 : JStr → JStr := fun _ => []

/-- `core.set_output`: assign one output key. -/
def set_out (o : JStr → JStr) (key val : JStr) : JStr → JStr :=
  fun k => if k = key then val else o k

/-- The three startup log actions of `program` (`program.ts` lines 237-247). -/
def logs_of (inputs : ActionInputs) : List Act :=
  Act.info (start_msg inputs) :: Act.info (found_msg inputs)
    :: mapping_logs 0 inputs.sync_paths

/-- The setup actions of a non-dry run (`program.ts` lines 256-295), in the
order performed: temp directory, git identity, target directory, two clones,
and the `.git` transplant. -/
def setup_of (env : Env) (inputs : ActionInputs) : List Act :=
  [Act.mk_temp_dir,
   Act.git_config (js "github-actions[bot]") (js "github-actions[bot]@users.noreply.github.com"),
   Act.mk_dir (path_join env.temp_dir (js "target")),
   Act.clone (clone_url inputs.personal_access_token inputs.destination_repo)
     (path_join env.temp_dir (js "destination_repo")),
   Act.clone (clone_url inputs.personal_access_token inputs.source_repo)
     (path_join env.temp_dir (js "source_repo")),
   Act.rename (path_join (path_join env.temp_dir (js "destination_repo")) (js ".git"))
     (path_join (path_join env.temp_dir (js "target")) (js ".git"))]

/-- Everything `program` (`program.ts` lines 226-310) does after a successful
parse: the three startup log lines, then either the dry-run early return or
the full pipeline (temp dir, git identity, target dir, two clones, `.git`
transplant, `move_paths`, `commit_and_push`, output).  The `.git` transplant
moves a directory, which the file map does not track; it is recorded in the
trace only. -/
def run_after_parse (env : Env) (inputs : ActionInputs) :
    Except JStr (JStr → JStr) × List Act :=
  if inputs.dry_run then
    (.ok outputs0, logs_of inputs ++ [Act.info dry_run_msg])
  else
    match move_paths inputs.sync_paths (path_join env.temp_dir (js "source_repo"))
        (path_join env.temp_dir (js "target")) env.fs with
    | (.error e, mtr) => (.error e, logs_of inputs ++ setup_of env inputs ++ mtr)
    | (.ok _, mtr) =>
      let hc := commit_and_push { status := env.status, head := env.head }
      (.ok (set_out outputs0 (js "commit_hash") hc.1),
       logs_of inputs ++ setup_of env inputs ++ mtr ++ hc.2 ++
         [Act.set_output (js "commit_hash") hc.1, Act.info done_msg])

/-- The whole `program` effect: `parse_inputs`, then `run_after_parse`; a
parse failure aborts the run with only the parse actions performed. -/
def run_program (env : Env) (raw : RawInputs) :
    Except JStr (JStr → JStr) × List Act :=
  match parse_inputs raw with
  | (.error e, tr) => (.error e, tr)
  | (.ok inputs, tr) =>
    match run_after_parse env inputs with
    | (r, tr') => (r, tr ++ tr')

/-- Does an action mutate or contact a repository (clone, stage, commit, push)? -/
def mutates : Act → Bool
  | .clone _ _ => true
  | .add _ => true
  | .commit _ => true
  | .push => true
  | _ => false

/-- Is an action a stage, commit, or push? -/
def is_acp : Act → Bool
  | .add _ => true
  | .commit _ => true
  | .push => true
  | _ => false

/-- Is an action a clone? -/
def is_clone : Act → Bool
  | .clone _ _ => true
  | _ => false

/-- Is an action a recursive removal? -/
def is_remove : Act → Bool
  | .remove _ => true
  | _ => false

/-- Did an `Except` computation succeed? -/
def exc_ok : Except JStr α → Bool
  | .ok _ => true
  | .error _ => false

/-- The `commit_hash` output of a finished run, `none` when the run failed. -/
def commit_out : Except JStr (JStr → JStr) → Option JStr
  | .ok o => some (o (js "commit_hash"))
  | .error _ => none

/-! Support lemmas about JavaScript-style trimming and splitting. -/

/-- Left trim only. -/
def wdrop (s : JStr) : JStr := s.dropWhile js_ws

/-- Right trim only. -/
def rwdrop (s : JStr) : JStr := (s.reverse.dropWhile js_ws).reverse

theorem jtrim_def (s : JStr) : jtrim s = rwdrop (wdrop s) := rfl

theorem dropWhile_append_cons {p : Char → Bool} {c : Char} (hc : p c = false)
    (A B : List Char) : (A ++ c :: B).dropWhile p = A.dropWhile p ++ c :: B := by
  induction A with
  | nil => simp [List.dropWhile_cons, hc]
  | cons d A ih =>
    by_cases h : p d
    · simp [List.dropWhile_cons, h, ih]
    · simp [List.dropWhile_cons, h]

theorem wdrop_idem (s : JStr) : wdrop (wdrop s) = wdrop s := by
  unfold wdrop
  induction s with
  | nil => rfl
  | cons c s ih =>
    by_cases h : js_ws c
    · simp [List.dropWhile_cons, h, ih]
    · simp [List.dropWhile_cons, h]

theorem rwdrop_idem (s : JStr) : rwdrop (rwdrop s) = rwdrop s := by
  unfold rwdrop
  rw [List.reverse_reverse]
  exact congrArg List.reverse (wdrop_idem s.reverse)

theorem wdrop_rwdrop (s : JStr) : wdrop (rwdrop s) = rwdrop (wdrop s) := by
  rcases hcore : wdrop s with _ | ⟨c, cs⟩
  · have hall : ∀ x ∈ s, js_ws x = true := List.dropWhile_eq_nil_iff.mp hcore
    have h1 : rwdrop s = [] := by
      unfold rwdrop
      rw [List.dropWhile_eq_nil_iff.mpr fun x hx => hall x (List.mem_reverse.mp hx)]
      rfl
    calc wdrop (rwdrop s) = wdrop [] := by rw [h1]
      _ = rwdrop [] := rfl
  · have hcore' : s.dropWhile js_ws = c :: cs := hcore
    have hc : js_ws c = false := by
      have h := List.head?_dropWhile_not js_ws s
      rw [hcore'] at h
      exact h
    have hs : s.takeWhile js_ws ++ (c :: cs) = s := by
      conv_rhs => rw [← List.takeWhile_append_dropWhile js_ws s]
      rw [show s.dropWhile js_ws = c :: cs from hcore]
    have hpre : ∀ x ∈ s.takeWhile js_ws, js_ws x = true :=
      fun x hx => List.mem_takeWhile_imp hx
    have hne : ((c :: cs).reverse.dropWhile js_ws).isEmpty = false := by
      rw [List.isEmpty_eq_false_iff_exists_mem]
      by_contra hno
      push_neg at hno
      have : ∀ x ∈ (c :: cs).reverse, js_ws x = true :=
        List.dropWhile_eq_nil_iff.mp (List.eq_nil_iff_forall_not_mem.mpr hno)
      have := this c (List.mem_reverse.mpr (List.mem_cons_self c cs))
      rw [hc] at this
      exact Bool.false_ne_true this
    have h1 : rwdrop s = s.takeWhile js_ws ++ rwdrop (c :: cs) := by
      unfold rwdrop
      conv_lhs => rw [← hs]
      rw [List.reverse_append, List.dropWhile_append, hne]
      simp [List.reverse_append]
    have h3 : ∃ z, rwdrop (c :: cs) = c :: z := by
      unfold rwdrop
      rw [List.reverse_cons, List.dropWhile_append]
      by_cases hE : (cs.reverse.dropWhile js_ws).isEmpty
      · rw [if_pos hE]
        exact ⟨[], by simp [List.dropWhile_cons, hc]⟩
      · rw [if_neg hE]
        exact ⟨(cs.reverse.dropWhile js_ws).reverse, by simp⟩
    obtain ⟨z, hz⟩ := h3
    calc wdrop (rwdrop s) = wdrop (s.takeWhile js_ws ++ rwdrop (c :: cs)) := by rw [h1]
      _ = wdrop (rwdrop (c :: cs)) := List.dropWhile_append_of_pos hpre
      _ = rwdrop (c :: cs) := by
          rw [hz]
          exact List.dropWhile_cons_of_neg (by simp [hc])

theorem jtrim_wdrop (s : JStr) : jtrim (wdrop s) = jtrim s := by
  rw [jtrim_def, jtrim_def, wdrop_idem]

theorem jtrim_rwdrop (s : JStr) : jtrim (rwdrop s) = jtrim s := by
  rw [jtrim_def, jtrim_def, wdrop_rwdrop, rwdrop_idem]

theorem rwdrop_append_cons {c : Char} (hc : js_ws c = false) (X B : JStr) :
    rwdrop (X ++ c :: B) = X ++ c :: rwdrop B := by
  unfold rwdrop
  rw [List.reverse_append, List.reverse_cons, List.append_assoc, List.singleton_append,
    dropWhile_append_cons hc]
  simp [List.reverse_append]

theorem jtrim_append_cons {c : Char} (hc : js_ws c = false) (A B : JStr) :
    jtrim (A ++ c :: B) = wdrop A ++ c :: rwdrop B := by
  rw [jtrim_def]
  rw [show wdrop (A ++ c :: B) = wdrop A ++ c :: B from dropWhile_append_cons hc A B]
  exact rwdrop_append_cons hc _ _

theorem split_first_append {c : Char} (A B : JStr) (h : c ∉ A) :
    split_first c (A ++ c :: B) = some (A, B) := by
  induction A with
  | nil => simp [split_first]
  | cons d A ih =>
    have hd : ¬(d = c) := fun hdc => h (hdc ▸ List.mem_cons_self d A)
    have h' : c ∉ A := fun hm => h (List.mem_cons_of_mem _ hm)
    simp [split_first, hd, ih h']

theorem mem_wdrop {x : Char} {A : JStr} (h : x ∈ wdrop A) : x ∈ A := by
  unfold wdrop at h
  induction A with
  | nil => exact absurd h (List.not_mem_nil x)
  | cons d A ih =>
    rw [List.dropWhile_cons] at h
    split at h
    · exact List.mem_cons_of_mem _ (ih h)
    · exact h

theorem parse_line_accepted_safe {l s d : JStr} (h : parse_line l = .accepted s d) :
    path_safe s = true ∧ path_safe d = true := by
  simp only [parse_line] at h
  split at h
  · simp at h
  · split at h
    · split at h
      · rename_i hsafe
        injection h with h1 h2
        subst h1
        subst h2
        exact ⟨hsafe, hsafe⟩
      · simp at h
    · split at h
      · rename_i hsafe
        rw [Bool.and_eq_true] at hsafe
        injection h with h1 h2
        subst h1
        subst h2
        exact hsafe
      · simp at h

theorem parse_inputs_cases (raw : RawInputs) :
    (∃ e, parse_inputs raw = (.error e, [Act.set_secret raw.personal_access_token]))
    ∨ (parse_inputs raw = (.error (js "No valid sync paths found"),
          Act.set_secret raw.personal_access_token
            :: ((split_nl raw.sync_paths).filterMap line_warning).map Act.warning)
        ∧ (split_nl raw.sync_paths).filterMap line_pair = [])
    ∨ (parse_inputs raw
        = (.ok { personal_access_token := raw.personal_access_token,
                 sync_paths := (split_nl raw.sync_paths).filterMap line_pair,
                 source_repo := raw.source_repo,
                 destination_repo := raw.destination_repo,
                 dry_run := decide (raw.dry_run = js "true") },
           Act.set_secret raw.personal_access_token
             :: ((split_nl raw.sync_paths).filterMap line_warning).map Act.warning)
        ∧ repo_format_ok raw.destination_repo = true
        ∧ (split_nl raw.sync_paths).filterMap line_pair ≠ []) := by
  simp only [parse_inputs]
  by_cases h1 : raw.personal_access_token = []
  · rw [if_pos h1, h1]
    exact Or.inl ⟨_, rfl⟩
  · rw [if_neg h1]
    by_cases h2 : raw.destination_repo = []
    · rw [if_pos h2]
      exact Or.inl ⟨_, rfl⟩
    · rw [if_neg h2]
      by_cases h3 : raw.source_repo = []
      · rw [if_pos h3]
        exact Or.inl ⟨_, rfl⟩
      · rw [if_neg h3]
        by_cases h4 : (!repo_format_ok raw.destination_repo) = true
        · rw [if_pos h4]
          exact Or.inl ⟨_, rfl⟩
        · rw [if_neg h4]
          by_cases h5 : jtrim raw.sync_paths = []
          · rw [if_pos h5]
            exact Or.inl ⟨_, rfl⟩
          · rw [if_neg h5]
            by_cases h6 : (split_nl raw.sync_paths).filterMap line_pair = []
            · rw [if_pos h6]
              exact Or.inr (Or.inl ⟨rfl, h6⟩)
            · rw [if_neg h6]
              refine Or.inr (Or.inr ⟨rfl, ?_, h6⟩)
              simpa using h4

theorem parse_inputs_ok_inv {raw : RawInputs} {inputs : ActionInputs} {tr : List Act}
    (h : parse_inputs raw = (.ok inputs, tr)) :
    inputs = { personal_access_token := raw.personal_access_token,
               sync_paths := (split_nl raw.sync_paths).filterMap line_pair,
               source_repo := raw.source_repo,
               destination_repo := raw.destination_repo,
               dry_run := decide (raw.dry_run = js "true") }
    ∧ tr = Act.set_secret raw.personal_access_token
        :: ((split_nl raw.sync_paths).filterMap line_warning).map Act.warning := by
  rcases parse_inputs_cases raw with ⟨e, hc⟩ | ⟨hc, _⟩ | ⟨hc, _, _⟩ <;> rw [hc] at h
  · simp at h
  · simp at h
  · rw [Prod.mk.injEq] at h
    obtain ⟨h1, h2⟩ := h
    injection h1 with h1
    exact ⟨h1.symm, h2.symm⟩

theorem parse_trace_eq (raw : RawInputs) :
    (parse_inputs raw).2 = [Act.set_secret raw.personal_access_token]
    ∨ (parse_inputs raw).2 = Act.set_secret raw.personal_access_token
        :: ((split_nl raw.sync_paths).filterMap line_warning).map Act.warning := by
  rcases parse_inputs_cases raw with ⟨e, hc⟩ | ⟨hc, _⟩ | ⟨hc, _, _⟩ <;> rw [hc]
  · exact Or.inl rfl
  · exact Or.inr rfl
  · exact Or.inr rfl

theorem parse_trace_mem {raw : RawInputs} {a : Act} (ha : a ∈ (parse_inputs raw).2) :
    a = Act.set_secret raw.personal_access_token ∨ ∃ m, a = Act.warning m := by
  rcases parse_trace_eq raw with h | h <;> rw [h] at ha
  · exact Or.inl (List.mem_singleton.mp ha)
  · rcases List.mem_cons.mp ha with ha | ha
    · exact Or.inl ha
    · obtain ⟨m, _, hm⟩ := List.mem_map.mp ha
      exact Or.inr ⟨m, hm.symm⟩

theorem parse_inputs_fails (raw : RawInputs)
    (hfail : repo_format_ok raw.destination_repo = false
      ∨ (split_nl raw.sync_paths).filterMap line_pair = []) :
    ∃ e tr, parse_inputs raw = (.error e, tr) := by
  rcases parse_inputs_cases raw with ⟨e, hc⟩ | ⟨hc, _⟩ | ⟨hc, hfmt, hpairs⟩
  · exact ⟨_, _, hc⟩
  · exact ⟨_, _, hc⟩
  · rcases hfail with hf | hf
    · rw [hf] at hfmt
      exact absurd hfmt (by simp)
    · exact absurd hf hpairs

/-- C4: every line whose extracted sides fail the safety check is excluded
from the parser's output and contributes a non-fatal warning, parsing of the
other lines continues (the output is exactly the per-line `filterMap`), and
consequently every pair in the parser's output has both sides free of `".."`
segments and leading `"/"`. -/
theorem c4_filter_invariant (raw : RawInputs) (inputs : ActionInputs) (tr : List Act)
    (h : parse_inputs raw = (.ok inputs, tr)) :
    inputs.sync_paths = (split_nl raw.sync_paths).filterMap line_pair
    ∧ (∀ l ∈ split_nl raw.sync_paths, ∀ m, parse_line l = .rejected m → Act.warning m ∈ tr)
    ∧ ∀ p ∈ inputs.sync_paths, path_safe p.1 = true ∧ path_safe p.2 = true := by
  obtain ⟨hi, ht⟩ := parse_inputs_ok_inv h
  refine ⟨by rw [hi], ?_, ?_⟩
  · intro l hl m hm
    rw [ht]
    refine List.mem_cons_of_mem _ ?_
    rw [List.mem_map]
    exact ⟨m, List.mem_filterMap.mpr ⟨l, hl, by simp [line_warning, hm]⟩, rfl⟩
  · intro p hp
    rw [hi] at hp
    obtain ⟨l, _, hl⟩ := List.mem_filterMap.mp hp
    unfold line_pair at hl
    rcases hpl : parse_line l with _ | m | ⟨s, d⟩
    · rw [hpl] at hl
      simp at hl
    · rw [hpl] at hl
      simp at hl
    · rw [hpl] at hl
      simp only [Option.some.injEq] at hl
      subst hl
      exact parse_line_accepted_safe hpl

/-- C5: a line of the shape `A:B` whose first separator ends `A`, with neither
trimmed side carrying surrounding quotes and both trimmed sides passing the
safety check, parses to exactly the pair of trimmed sides, split at the first
`':'`. -/
theorem c5_first_colon_split (A B : JStr) (hA : ':' ∉ A)
    (hqA : strip_quotes (jtrim A) = jtrim A) (hqB : strip_quotes (jtrim B) = jtrim B)
    (hsA : path_safe (jtrim A) = true) (hsB : path_safe (jtrim B) = true) :
    parse_line (A ++ ':' :: B) = .accepted (jtrim A) (jtrim B) := by
  have hws : js_ws ':' = false := rfl
  have ht : jtrim (A ++ ':' :: B) = wdrop A ++ ':' :: rwdrop B := jtrim_append_cons hws A B
  have hmem : ':' ∉ wdrop A := fun hm => hA (mem_wdrop hm)
  have hsplit : split_first ':' (wdrop A ++ ':' :: rwdrop B) = some (wdrop A, rwdrop B) :=
    split_first_append _ _ hmem
  have hne : ¬(wdrop A ++ ':' :: rwdrop B = []) := by simp
  simp only [parse_line, ht, hsplit, if_neg hne]
  simp only [jtrim_wdrop, jtrim_rwdrop, hqA, hqB, hsA, hsB]
  rfl

/-- Concrete instance of `c5_first_colon_split` with all hypotheses
discharged. -/
theorem c5_first_colon_split_witness :
    parse_line (js " docs " ++ ':' :: js " content ")
      = .accepted (jtrim (js " docs ")) (jtrim (js " content ")) :=
  c5_first_colon_split (js " docs ") (js " content ")
    (by decide) (by decide) (by decide) (by decide) (by decide)

/-- C10: a line with an empty side after trimming is accepted, not rejected:
the empty string passes the path-safety check, the line `":"` parses to the
mapping `("", "")`, the line `":dest"` parses to `("", "dest")`, and during
composition an empty component joins to the base directory itself. -/
theorem c10_empty_side_accepted (d : JStr) :
    path_safe [] = true
    ∧ parse_line (js ":") = .accepted [] []
    ∧ parse_line (js ":dest") = .accepted [] (js "dest")
    ∧ path_join d [] = d := by
  refine ⟨rfl, by decide, by decide, ?_⟩
  simp [path_join]

/-- C2: applying `[a→x, b→x]` where the two sources hold different content
succeeds and leaves source `b`'s content at destination `x` — mappings apply
in list order and the second `rename` overwrites the first one's output. -/
theorem c2_overwrite_order (source_clone_dir destination_clone_dir a b x ca cb : JStr) (fs : Fs)
    (ha : fs (path_join source_clone_dir a) = some ca)
    (hb : fs (path_join source_clone_dir b) = some cb)
    (hcc : ca ≠ cb)
    (hdisj : ¬(path_join source_clone_dir b = path_join destination_clone_dir x)) :
    ∃ fs' tr,
      move_paths [(a, x), (b, x)] source_clone_dir destination_clone_dir fs = (.ok fs', tr)
      ∧ fs' (path_join destination_clone_dir x) = some cb := by
  have hab : ¬(path_join source_clone_dir b = path_join source_clone_dir a) := by
    intro hEq
    rw [← hEq, hb] at ha
    exact hcc (Option.some.inj ha).symm
  simp only [move_paths, fs_rename, ha]
  simp only [if_neg hdisj, if_neg hab, hb]
  exact ⟨_, _, rfl, by simp⟩

/-- Concrete file system for the overwrite-order witness. -/
def fs_c2 : Fs :=
  fun p => if p = js "s/a" then some (js "1") else if p = js "s/b" then some (js "2") else none

/-- Concrete instance of `c2_overwrite_order` with all hypotheses
discharged. -/
theorem c2_overwrite_order_witness :
    ∃ fs' tr,
      move_paths [(js "a", js "x"), (js "b", js "x")] (js "s") (js "t") fs_c2 = (.ok fs', tr)
      ∧ fs' (path_join (js "t") (js "x")) = some (js "2") :=
  c2_overwrite_order (js "s") (js "t") (js "a") (js "b") (js "x") (js "1") (js "2") fs_c2
    (by decide) (by decide) (by decide) (by decide)

theorem mapping_logs_mem {ps : List (JStr × JStr)} {i : Nat} {a : Act}
    (ha : a ∈ mapping_logs i ps) : ∃ m, a = Act.info m := by
  induction ps generalizing i with
  | nil => simp [mapping_logs] at ha
  | cons p rest ih =>
    obtain ⟨s, d⟩ := p
    simp only [mapping_logs, List.mem_cons] at ha
    rcases ha with ha | ha
    · exact ⟨_, ha⟩
    · exact ih ha

theorem logs_of_mem {inputs : ActionInputs} {a : Act} (ha : a ∈ logs_of inputs) :
    ∃ m, a = Act.info m := by
  simp only [logs_of, List.mem_cons] at ha
  rcases ha with ha | ha | ha
  · exact ⟨_, ha⟩
  · exact ⟨_, ha⟩
  · exact mapping_logs_mem ha

theorem move_trace_mem {pairs : List (JStr × JStr)} {sdir tdir : JStr} {fs : Fs} {a : Act}
    (ha : a ∈ (move_paths pairs sdir tdir fs).2) :
    (∃ p, a = Act.mk_dir p) ∨ ∃ p q, a = Act.rename p q := by
  induction pairs generalizing fs with
  | nil => simp [move_paths] at ha
  | cons pd rest ih =>
    obtain ⟨source, destination⟩ := pd
    simp only [move_paths] at ha
    rcases hr : fs_rename (path_join sdir source) (path_join tdir destination) fs with e | fs'
    · rw [hr] at ha
      simp only [List.mem_singleton] at ha
      exact Or.inl ⟨_, ha⟩
    · rw [hr] at ha
      simp only [List.mem_cons] at ha
      rcases ha with ha | ha | ha
      · exact Or.inl ⟨_, ha⟩
      · exact Or.inr ⟨_, _, ha⟩
      · exact ih ha

theorem commit_trace_mem {r : RepoEnv} {a : Act} (ha : a ∈ (commit_and_push r).2) :
    a = Act.add [js "."] ∨ a = Act.commit commit_message ∨ a = Act.push
    ∨ a = Act.rev_parse (js "HEAD") ∨ ∃ m, a = Act.info m := by
  unfold commit_and_push at ha
  split at ha
  · simp only [List.mem_singleton] at ha
    exact Or.inr (Or.inr (Or.inr (Or.inr ⟨_, ha⟩)))
  · simp only [List.mem_cons, List.not_mem_nil, or_false] at ha
    rcases ha with ha | ha | ha | ha | ha
    · exact Or.inl ha
    · exact Or.inr (Or.inl ha)
    · exact Or.inr (Or.inr (Or.inl ha))
    · exact Or.inr (Or.inr (Or.inr (Or.inl ha)))
    · exact Or.inr (Or.inr (Or.inr (Or.inr ⟨_, ha⟩)))

theorem commit_and_push_no_changes {r : RepoEnv} (h : jtrim r.status = []) :
    commit_and_push r = ([], [Act.info (js "No changes detected, skipping commit and push")]) := by
  unfold commit_and_push
  rw [if_pos h]

theorem commit_and_push_changes {r : RepoEnv} (h : ¬(jtrim r.status = [])) :
    commit_and_push r = (r.head,
      [Act.add [js "."], Act.commit commit_message, Act.push, Act.rev_parse (js "HEAD"),
       Act.info (js "Successfully pushed changes with commit hash: " ++ r.head)]) := by
  unfold commit_and_push
  rw [if_neg h]

theorem run_program_parse_error {env : Env} {raw : RawInputs} {e : JStr} {tr : List Act}
    (h : parse_inputs raw = (.error e, tr)) :
    run_program env raw = (.error e, tr) := by
  unfold run_program
  rw [h]

theorem run_program_parse_ok {env : Env} {raw : RawInputs} {inputs : ActionInputs} {tr : List Act}
    (h : parse_inputs raw = (.ok inputs, tr)) :
    run_program env raw
      = ((run_after_parse env inputs).1, tr ++ (run_after_parse env inputs).2) := by
  unfold run_program
  rw [h]

theorem run_after_parse_dry {env : Env} {inputs : ActionInputs} (h : inputs.dry_run = true) :
    run_after_parse env inputs = (.ok outputs0, logs_of inputs ++ [Act.info dry_run_msg]) := by
  unfold run_after_parse
  rw [h]
  rfl

theorem run_after_parse_move_error {env : Env} {inputs : ActionInputs} {e : JStr} {mtr : List Act}
    (h : inputs.dry_run = false)
    (hm : move_paths inputs.sync_paths (path_join env.temp_dir (js "source_repo"))
        (path_join env.temp_dir (js "target")) env.fs = (.error e, mtr)) :
    run_after_parse env inputs = (.error e, logs_of inputs ++ setup_of env inputs ++ mtr) := by
  unfold run_after_parse
  rw [h, hm]
  rfl

theorem run_after_parse_ok_move {env : Env} {inputs : ActionInputs} {fs' : Fs} {mtr : List Act}
    (h : inputs.dry_run = false)
    (hm : move_paths inputs.sync_paths (path_join env.temp_dir (js "source_repo"))
        (path_join env.temp_dir (js "target")) env.fs = (.ok fs', mtr)) :
    run_after_parse env inputs
      = (.ok (set_out outputs0 (js "commit_hash")
            (commit_and_push { status := env.status, head := env.head }).1),
         logs_of inputs ++ setup_of env inputs ++ mtr
           ++ (commit_and_push { status := env.status, head := env.head }).2
           ++ [Act.set_output (js "commit_hash")
                 (commit_and_push { status := env.status, head := env.head }).1,
               Act.info done_msg]) := by
  unfold run_after_parse
  rw [h, hm]
  rfl

/-- C3: when every line of the `sync_paths` input contributes no mapping
(blank or rejected as unsafe), parsing fails with a validation error and the
run performs no clone, add, commit, or push — no repository is mutated. -/
theorem c3_zero_mappings_abort (raw : RawInputs) (env : Env)
    (h : ∀ l ∈ split_nl raw.sync_paths, line_pair l = none) :
    (∃ e tr, parse_inputs raw = (.error e, tr))
    ∧ exc_ok (run_program env raw).1 = false
    ∧ ∀ a ∈ (run_program env raw).2, mutates a = false := by
  have hpairs : (split_nl raw.sync_paths).filterMap line_pair = [] :=
    List.filterMap_eq_nil_iff.mpr h
  obtain ⟨e, tr, hp⟩ := parse_inputs_fails raw (Or.inr hpairs)
  refine ⟨⟨e, tr, hp⟩, ?_, ?_⟩
  · rw [run_program_parse_error hp]
    rfl
  · intro a ha
    rw [run_program_parse_error hp] at ha
    have ha' : a ∈ (parse_inputs raw).2 := by rw [hp]; exact ha
    rcases parse_trace_mem ha' with h1 | ⟨m, h1⟩ <;> subst h1 <;> rfl

/-- Concrete inputs whose only `sync_paths` line is unsafe. -/
def raw_c3 : RawInputs :=
  { personal_access_token := js "t", sync_paths := js "../x:y",
    source_repo := js "o/s", destination_repo := js "o/d", dry_run := js "" }

/-- Concrete environment for run-level witnesses. -/
def env_c3 : Env :=
  { temp_dir := js "/tmp/w", fs := fun _ => none, status := js "", head := js "h" }

/-- Concrete instance of `c3_zero_mappings_abort` with all hypotheses
discharged. -/
theorem c3_zero_mappings_abort_witness :
    (∃ e tr, parse_inputs raw_c3 = (.error e, tr))
    ∧ exc_ok (run_program env_c3 raw_c3).1 = false
    ∧ ∀ a ∈ (run_program env_c3 raw_c3).2, mutates a = false :=
  c3_zero_mappings_abort raw_c3 env_c3 (by decide)

/-- C6 as stated is false: the code validates only the destination identifier
against the `owner/name` shape.  With a malformed source identifier the run
does not fail before any clone — here it even completes successfully, and its
trace contains clone actions. -/
def raw_c6 : RawInputs :=
  { personal_access_token := js "t", sync_paths := js "a:b",
    source_repo := js "notarepo", destination_repo := js "o/d", dry_run := js "" }

/-- Environment in which `raw_c6`'s single mapping exists on disk and the
merged tree reports a change. -/
def env_c6 : Env :=
  { temp_dir := js "/tmp/w",
    fs := fun p => if p = js "/tmp/w/source_repo/a" then some (js "x") else none,
    status := js " M b", head := js "h" }

/-- Counterexample to C6: the source repository identifier of `raw_c6` fails
the `owner/name` shape, yet the run performs clones (and succeeds) instead of
failing with a validation error before any clone. -/
theorem c6_counterexample :
    repo_format_ok raw_c6.source_repo = false
    ∧ exc_ok (run_program env_c6 raw_c6).1 = true
    ∧ (run_program env_c6 raw_c6).2.any is_clone = true := by decide

/-- C6 amended: only the destination repository identifier is validated
against the `owner/name` shape; when it fails the check (or any earlier
required-input check fails), the run stops with a validation error and
performs no clone, add, commit, or push. -/
theorem c6_dest_format_validated (raw : RawInputs) (env : Env)
    (h : repo_format_ok raw.destination_repo = false) :
    exc_ok (run_program env raw).1 = false
    ∧ ∀ a ∈ (run_program env raw).2, mutates a = false := by
  obtain ⟨e, tr, hp⟩ := parse_inputs_fails raw (Or.inl h)
  refine ⟨?_, ?_⟩
  · rw [run_program_parse_error hp]
    rfl
  · intro a ha
    rw [run_program_parse_error hp] at ha
    have ha' : a ∈ (parse_inputs raw).2 := by rw [hp]; exact ha
    rcases parse_trace_mem ha' with h1 | ⟨m, h1⟩ <;> subst h1 <;> rfl

/-- Concrete instance of `c6_dest_format_validated` with all hypotheses
discharged. -/
def raw_c6w : RawInputs :=
  { personal_access_token := js "t", sync_paths := js "a:b",
    source_repo := js "o/s", destination_repo := js "not-a-repo", dry_run := js "" }

theorem c6_dest_format_validated_witness :
    exc_ok (run_program env_c3 raw_c6w).1 = false
    ∧ ∀ a ∈ (run_program env_c3 raw_c6w).2, mutates a = false :=
  c6_dest_format_validated raw_c6w env_c3 (by decide)

/-- C7: with the dry-run flag set, a successfully parsed run logs the
mappings, performs no clone, add, commit, or push, and the `commit_hash`
output reads as the empty string (it is never assigned and the output store
defaults to empty). -/
theorem c7_dry_run (raw : RawInputs) (inputs : ActionInputs) (tr : List Act) (env : Env)
    (h : parse_inputs raw = (.ok inputs, tr)) (hd : inputs.dry_run = true) :
    commit_out (run_program env raw).1 = some []
    ∧ (run_program env raw).2 = tr ++ logs_of inputs ++ [Act.info dry_run_msg]
    ∧ ∀ a ∈ (run_program env raw).2, mutates a = false := by
  rw [run_program_parse_ok h, run_after_parse_dry hd]
  refine ⟨rfl, by simp [List.append_assoc], ?_⟩
  intro a ha
  rcases List.mem_append.mp ha with hm | hm
  · have hm' : a ∈ (parse_inputs raw).2 := by rw [h]; exact hm
    rcases parse_trace_mem hm' with h1 | ⟨m, h1⟩ <;> subst h1 <;> rfl
  · rcases List.mem_append.mp hm with hm | hm
    · obtain ⟨m, h1⟩ := logs_of_mem hm
      subst h1
      rfl
    · rw [List.mem_singleton.mp hm]
      rfl

/-- Concrete inputs with the dry-run flag set. -/
def raw_c7 : RawInputs :=
  { personal_access_token := js "t", sync_paths := js "a:b",
    source_repo := js "o/s", destination_repo := js "o/d", dry_run := js "true" }

/-- The parsed form of `raw_c7`. -/
def inputs_c7 : ActionInputs :=
  { personal_access_token := js "t", sync_paths := [(js "a", js "b")],
    source_repo := js "o/s", destination_repo := js "o/d", dry_run := true }

/-- Concrete instance of `c7_dry_run` with all hypotheses discharged. -/
theorem c7_dry_run_witness :
    commit_out (run_program env_c3 raw_c7).1 = some []
    ∧ (run_program env_c3 raw_c7).2
        = [Act.set_secret (js "t")] ++ logs_of inputs_c7 ++ [Act.info dry_run_msg]
    ∧ ∀ a ∈ (run_program env_c3 raw_c7).2, mutates a = false :=
  c7_dry_run raw_c7 inputs_c7 [Act.set_secret (js "t")] env_c3 (by decide) (by decide)

theorem mem_flatten5 {a : Act} {l1 l2 l3 l4 l5 : List Act}
    (ha : a ∈ l1 ++ l2 ++ l3 ++ l4 ++ l5) :
    a ∈ l1 ∨ a ∈ l2 ∨ a ∈ l3 ∨ a ∈ l4 ∨ a ∈ l5 := by
  simp only [List.mem_append] at ha
  tauto

theorem setup_of_mem {env : Env} {inputs : ActionInputs} {a : Act} (ha : a ∈ setup_of env inputs) :
    is_acp a = false ∧ is_remove a = false
    ∧ ∀ url dir, a = Act.clone url dir →
        url = clone_url inputs.personal_access_token inputs.destination_repo
        ∨ url = clone_url inputs.personal_access_token inputs.source_repo := by
  simp only [setup_of, List.mem_cons, List.not_mem_nil, or_false] at ha
  rcases ha with h | h | h | h | h | h <;> subst h
  · exact ⟨rfl, rfl, fun url dir hEq => absurd hEq (by simp)⟩
  · exact ⟨rfl, rfl, fun url dir hEq => absurd hEq (by simp)⟩
  · exact ⟨rfl, rfl, fun url dir hEq => absurd hEq (by simp)⟩
  · exact ⟨rfl, rfl, fun url dir hEq => Or.inl (Act.clone.inj hEq.symm).1⟩
  · exact ⟨rfl, rfl, fun url dir hEq => Or.inr (Act.clone.inj hEq.symm).1⟩
  · exact ⟨rfl, rfl, fun url dir hEq => absurd hEq (by simp)⟩

/-- C1: for a run that reaches the change-detection stage (successful parse,
no dry-run, successful composition): if the merged tree's status string is
empty after trimming, the run succeeds with an empty-string commit hash and
performs no add, commit, or push; otherwise it stages everything, commits
with the fixed message, pushes, resolves `HEAD`, sets that hash as the
output, and succeeds with it. -/
theorem c1_change_detection (raw : RawInputs) (inputs : ActionInputs) (ptr : List Act) (env : Env)
    (h : parse_inputs raw = (.ok inputs, ptr))
    (hd : inputs.dry_run = false)
    (hm : exc_ok (move_paths inputs.sync_paths (path_join env.temp_dir (js "source_repo"))
        (path_join env.temp_dir (js "target")) env.fs).1 = true) :
    (jtrim env.status = [] →
        commit_out (run_program env raw).1 = some []
        ∧ ∀ a ∈ (run_program env raw).2, is_acp a = false)
    ∧ (¬(jtrim env.status = []) →
        commit_out (run_program env raw).1 = some env.head
        ∧ ∃ t, (run_program env raw).2
            = t ++ [Act.add [js "."], Act.commit commit_message, Act.push,
                    Act.rev_parse (js "HEAD"),
                    Act.info (js "Successfully pushed changes with commit hash: " ++ env.head),
                    Act.set_output (js "commit_hash") env.head, Act.info done_msg]) := by
  rcases hmp : move_paths inputs.sync_paths (path_join env.temp_dir (js "source_repo"))
      (path_join env.temp_dir (js "target")) env.fs with ⟨r, mtr⟩
  rw [hmp] at hm
  rcases r with e | fs'
  · exact absurd hm (by simp [exc_ok])
  · rw [run_program_parse_ok h, run_after_parse_ok_move hd hmp]
    constructor
    · intro hs
      rw [commit_and_push_no_changes (r := { status := env.status, head := env.head }) hs]
      refine ⟨by simp [commit_out, set_out], ?_⟩
      intro a ha
      rcases List.mem_append.mp ha with hp1 | hrest
      · have hp1' : a ∈ (parse_inputs raw).2 := by rw [h]; exact hp1
        rcases parse_trace_mem hp1' with h1 | ⟨m, h1⟩ <;> subst h1 <;> rfl
      · rcases mem_flatten5 hrest with h1 | h1 | h1 | h1 | h1
        · obtain ⟨m, h2⟩ := logs_of_mem h1
          subst h2
          rfl
        · exact (setup_of_mem h1).1
        · have h2 : a ∈ (move_paths inputs.sync_paths (path_join env.temp_dir (js "source_repo"))
              (path_join env.temp_dir (js "target")) env.fs).2 := by rw [hmp]; exact h1
          rcases move_trace_mem h2 with ⟨p, h3⟩ | ⟨p, q, h3⟩ <;> subst h3 <;> rfl
        · rw [List.mem_singleton.mp h1]
          rfl
        · rcases List.mem_cons.mp h1 with h2 | h2
          · subst h2
            rfl
          · rw [List.mem_singleton.mp h2]
            rfl
    · intro hs
      rw [commit_and_push_changes (r := { status := env.status, head := env.head }) hs]
      refine ⟨by simp [commit_out, set_out], ?_⟩
      exact ⟨ptr ++ (logs_of inputs ++ setup_of env inputs ++ mtr), by simp [List.append_assoc]⟩

/-- Concrete inputs for the run-level witnesses of a full (non-dry) run. -/
def raw_c1 : RawInputs :=
  { personal_access_token := js "t", sync_paths := js "a:b",
    source_repo := js "o/s", destination_repo := js "o/d", dry_run := js "" }

/-- The parsed form of `raw_c1`. -/
def inputs_c1 : ActionInputs :=
  { personal_access_token := js "t", sync_paths := [(js "a", js "b")],
    source_repo := js "o/s", destination_repo := js "o/d", dry_run := false }

/-- Environment in which `raw_c1`'s mapping exists on disk and the merged
tree reports a change. -/
def env_c1 : Env :=
  { temp_dir := js "/tmp/w",
    fs := fun p => if p = js "/tmp/w/source_repo/a" then some (js "x") else none,
    status := js " M b", head := js "h" }

/-- Concrete instance of `c1_change_detection` with all hypotheses
discharged. -/
theorem c1_change_detection_witness :
    (jtrim env_c1.status = [] →
        commit_out (run_program env_c1 raw_c1).1 = some []
        ∧ ∀ a ∈ (run_program env_c1 raw_c1).2, is_acp a = false)
    ∧ (¬(jtrim env_c1.status = []) →
        commit_out (run_program env_c1 raw_c1).1 = some env_c1.head
        ∧ ∃ t, (run_program env_c1 raw_c1).2
            = t ++ [Act.add [js "."], Act.commit commit_message, Act.push,
                    Act.rev_parse (js "HEAD"),
                    Act.info (js "Successfully pushed changes with commit hash: " ++ env_c1.head),
                    Act.set_output (js "commit_hash") env_c1.head, Act.info done_msg]) :=
  c1_change_detection raw_c1 inputs_c1 [Act.set_secret (js "t")] env_c1
    (by decide) (by decide) (by decide)

/-- Inputs for the cleanup claim: one safe mapping, no dry run. -/
def raw_c8 : RawInputs :=
  { personal_access_token := js "t", sync_paths := js "a",
    source_repo := js "o/s", destination_repo := js "o/d", dry_run := js "" }

/-- Environment in which `raw_c8`'s run succeeds end to end. -/
def env_c8 : Env :=
  { temp_dir := js "/tmp/w",
    fs := fun p => if p = js "/tmp/w/source_repo/a" then some (js "x") else none,
    status := js " M a", head := js "h" }

/-- Environment in which `raw_c8`'s run fails during composition. -/
def env_c8_fail : Env :=
  { temp_dir := js "/tmp/w", fs := fun _ => none, status := js "", head := js "h" }

/-- C8 is violated by the code: a fully successful non-dry run records
`makeTempDirectory` but no recursive removal of the temp directory, and a run
that fails during composition likewise exits without any removal
(`program.ts` performs no cleanup on any path; `main.ts` cleans up only on
the success path). -/
theorem c8_no_cleanup :
    (exc_ok (run_program env_c8 raw_c8).1 = true
      ∧ Act.mk_temp_dir ∈ (run_program env_c8 raw_c8).2
      ∧ (run_program env_c8 raw_c8).2.all (fun a => !is_remove a) = true)
    ∧ (exc_ok (run_program env_c8_fail raw_c8).1 = false
      ∧ Act.mk_temp_dir ∈ (run_program env_c8_fail raw_c8).2
      ∧ (run_program env_c8_fail raw_c8).2.all (fun a => !is_remove a) = true) := by
  decide

theorem mem_flatten3 {a : Act} {l1 l2 l3 : List Act} (ha : a ∈ l1 ++ l2 ++ l3) :
    a ∈ l1 ∨ a ∈ l2 ∨ a ∈ l3 := by
  simp only [List.mem_append] at ha
  tauto

theorem get?_zero_eq_head (l : List Act) : l.get? 0 = l.head? := by
  cases l <;> rfl

theorem run_trace_head (env : Env) (raw : RawInputs) :
    (run_program env raw).2.head? = some (Act.set_secret raw.personal_access_token) := by
  have hhead : (parse_inputs raw).2.head? = some (Act.set_secret raw.personal_access_token) := by
    rcases parse_trace_eq raw with h | h <;> rw [h] <;> rfl
  rcases hp : parse_inputs raw with ⟨r, tr⟩
  rw [hp] at hhead
  rcases r with e | inputs
  · rw [run_program_parse_error hp]
    exact hhead
  · rw [run_program_parse_ok hp]
    rcases tr with _ | ⟨t0, trr⟩
    · simp at hhead
    · simpa using hhead

theorem run_trace_clone_urls {env : Env} {raw : RawInputs} {url dir : JStr}
    (hmem : Act.clone url dir ∈ (run_program env raw).2) :
    url = clone_url raw.personal_access_token raw.destination_repo
    ∨ url = clone_url raw.personal_access_token raw.source_repo := by
  rcases hp : parse_inputs raw with ⟨r, tr⟩
  rcases r with e | inputs
  · rw [run_program_parse_error hp] at hmem
    have hm' : Act.clone url dir ∈ (parse_inputs raw).2 := by rw [hp]; exact hmem
    rcases parse_trace_mem hm' with h1 | ⟨m, h1⟩ <;> simp at h1
  · obtain ⟨hi, -⟩ := parse_inputs_ok_inv hp
    have hf1 : inputs.personal_access_token = raw.personal_access_token := by rw [hi]
    have hf2 : inputs.source_repo = raw.source_repo := by rw [hi]
    have hf3 : inputs.destination_repo = raw.destination_repo := by rw [hi]
    rw [run_program_parse_ok hp] at hmem
    rcases List.mem_append.mp hmem with hm1 | hm2
    · have hm' : Act.clone url dir ∈ (parse_inputs raw).2 := by rw [hp]; exact hm1
      rcases parse_trace_mem hm' with h1 | ⟨m, h1⟩ <;> simp at h1
    · have hsetup : Act.clone url dir ∈ setup_of env inputs →
          url = clone_url raw.personal_access_token raw.destination_repo
          ∨ url = clone_url raw.personal_access_token raw.source_repo := by
        intro h1
        rcases (setup_of_mem h1).2.2 url dir rfl with h2 | h2
        · rw [hf1, hf3] at h2
          exact Or.inl h2
        · rw [hf1, hf2] at h2
          exact Or.inr h2
      by_cases hdry : inputs.dry_run = true
      · rw [run_after_parse_dry hdry] at hm2
        rcases List.mem_append.mp hm2 with h1 | h1
        · obtain ⟨m, h2⟩ := logs_of_mem h1
          simp at h2
        · rw [List.mem_singleton] at h1
          simp at h1
      · have hdry' : inputs.dry_run = false := by
          rcases hb : inputs.dry_run with _ | _
          · rfl
          · exact absurd hb hdry
        rcases hmp : move_paths inputs.sync_paths (path_join env.temp_dir (js "source_repo"))
            (path_join env.temp_dir (js "target")) env.fs with ⟨mr, mtr⟩
        have hmtr : Act.clone url dir ∈ mtr → False := by
          intro hcl
          have h2 : Act.clone url dir ∈ (move_paths inputs.sync_paths
              (path_join env.temp_dir (js "source_repo"))
              (path_join env.temp_dir (js "target")) env.fs).2 := by rw [hmp]; exact hcl
          rcases move_trace_mem h2 with ⟨p, h3⟩ | ⟨p, q, h3⟩ <;> simp at h3
        rcases mr with e' | fs'
        · rw [run_after_parse_move_error hdry' hmp] at hm2
          rcases mem_flatten3 hm2 with h1 | h1 | h1
          · obtain ⟨m, h2⟩ := logs_of_mem h1
            simp at h2
          · exact hsetup h1
          · exact absurd h1 hmtr
        · rw [run_after_parse_ok_move hdry' hmp] at hm2
          rcases mem_flatten5 hm2 with h1 | h1 | h1 | h1 | h1
          · obtain ⟨m, h2⟩ := logs_of_mem h1
            simp at h2
          · exact hsetup h1
          · exact absurd h1 hmtr
          · rcases commit_trace_mem h1 with h2 | h2 | h2 | h2 | ⟨m, h2⟩ <;> simp at h2
          · rcases List.mem_cons.mp h1 with h2 | h2
            · simp at h2
            · rw [List.mem_singleton] at h2
              simp at h2

/-- C9: in every run, each clone the trace performs uses exactly the HTTPS
URL embedding the percent-encoded credential for one of the two configured
repositories (the credential appears nowhere else in any git invocation),
and the credential was registered with the secret-masking facility at a
strictly earlier point of the trace. -/
theorem c9_secret_before_clone (raw : RawInputs) (env : Env) :
    ∀ k url dir, (run_program env raw).2.get? k = some (Act.clone url dir) →
      (url = clone_url raw.personal_access_token raw.destination_repo
        ∨ url = clone_url raw.personal_access_token raw.source_repo)
      ∧ ∃ i, i < k ∧ (run_program env raw).2.get? i
          = some (Act.set_secret raw.personal_access_token) := by
  intro k url dir hk
  refine ⟨run_trace_clone_urls (List.get?_mem hk), ?_⟩
  have h0 : (run_program env raw).2.get? 0 = some (Act.set_secret raw.personal_access_token) := by
    rw [get?_zero_eq_head]
    exact run_trace_head env raw
  have hk0 : k ≠ 0 := by
    intro hz
    subst hz
    rw [h0] at hk
    simp at hk
  exact ⟨0, Nat.pos_of_ne_zero hk0, h0⟩

/-- Concrete instance of `c9_secret_before_clone` with its hypothesis
discharged: the destination clone sits at index 7 of the trace and the
credential was masked at index 0. -/
theorem c9_secret_before_clone_witness :
    (js "https://t@github.com/o/d.git"
        = clone_url raw_c1.personal_access_token raw_c1.destination_repo
      ∨ js "https://t@github.com/o/d.git"
        = clone_url raw_c1.personal_access_token raw_c1.source_repo)
    ∧ ∃ i, i < 7 ∧ (run_program env_c1 raw_c1).2.get? i
        = some (Act.set_secret raw_c1.personal_access_token) :=
  c9_secret_before_clone raw_c1 env_c1 7 (js "https://t@github.com/o/d.git")
    (path_join (js "/tmp/w") (js "destination_repo")) (by decide)

/-- Inputs mixing a safe line with an unsafe line. -/
def raw_c4 : RawInputs :=
  { personal_access_token := js "t", sync_paths := js "ok:dest\n../bad:x",
    source_repo := js "o/s", destination_repo := js "o/d", dry_run := js "" }

/-- The parsed form of `raw_c4`: only the safe line survives. -/
def inputs_c4 : ActionInputs :=
  { personal_access_token := js "t", sync_paths := [(js "ok", js "dest")],
    source_repo := js "o/s", destination_repo := js "o/d", dry_run := false }

/-- The parse trace of `raw_c4`: the secret registration and one warning. -/
def tr_c4 : List Act :=
  [Act.set_secret (js "t"),
   Act.warning (js "Potentially unsafe path detected and skipped: ../bad -> x")]

/-- Concrete instance of `c4_filter_invariant` with its hypothesis
discharged. -/
theorem c4_filter_invariant_witness :
    inputs_c4.sync_paths = (split_nl raw_c4.sync_paths).filterMap line_pair
    ∧ (∀ l ∈ split_nl raw_c4.sync_paths, ∀ m, parse_line l = .rejected m → Act.warning m ∈ tr_c4)
    ∧ ∀ p ∈ inputs_c4.sync_paths, path_safe p.1 = true ∧ path_safe p.2 = true :=
  c4_filter_invariant raw_c4 inputs_c4 tr_c4 (by decide)

/-- Concrete instance of `c10_empty_side_accepted`. -/
theorem c10_empty_side_accepted_witness :
    path_safe [] = true
    ∧ parse_line (js ":") = .accepted [] []
    ∧ parse_line (js ":dest") = .accepted [] (js "dest")
    ∧ path_join (js "/tmp/w/target") [] = js "/tmp/w/target" :=
  c10_empty_side_accepted (js "/tmp/w/target")
